import Mathlib

/-!
Verification of the pii-form repository's sanitization / formatting /
masking / validation core against its natural-language specification.

JavaScript strings are modelled as `List Char` (`Str`).  Pure functions from
`src/lib/sanitize.ts`, `src/lib/schema.ts` and the `SSNInput` / `IdentityForm`
components are embedded directly; browser / library built-ins that the code
calls (DOMPurify, `Date` parsing) are modelled from their documented
semantics where noted.
-/

/-- JavaScript strings are modelled as lists of characters. -/
abbrev Str := List Char

/-- Convenience coercion from Lean string literals to the model. -/
def str (s : String) : Str := s.data

/-- JS regex `\d` matches exactly the ASCII digits 0-9, which is `Char.isDigit`. -/
def digitsOf (s : Str) : Str := s.filter Char.isDigit

/-- `formatSSN` from `src/lib/sanitize.ts`:
`raw.replace(/\D/g, "").slice(0, 9)` then length-keyed dash grouping. -/
def formatSSN (raw : Str) : Str :=
  let digits := (digitsOf raw).take 9
  if digits.length ≤ 3 then digits
  else if digits.length ≤ 5 then digits.take 3 ++ '-' :: digits.drop 3
  else digits.take 3 ++ '-' :: ((digits.drop 3).take 2 ++ '-' :: digits.drop 5)

/-- `formatPhone` from `src/lib/sanitize.ts`:
`raw.replace(/\D/g, "").slice(0, 10)` then length-keyed dash grouping. -/
def formatPhone (raw : Str) : Str :=
  let digits := (digitsOf raw).take 10
  if digits.length ≤ 3 then digits
  else if digits.length ≤ 6 then digits.take 3 ++ '-' :: digits.drop 3
  else digits.take 3 ++ '-' :: ((digits.drop 3).take 3 ++ '-' :: digits.drop 6)

/-- `formatMaskedSSN` from `src/ui/SSNInput.tsx`: the same dash grouping as
`formatSSN` but applied verbatim to its input (no digit filtering, no cap). -/
def formatMaskedSSN (raw : Str) : Str :=
  if raw.length ≤ 3 then raw
  else if raw.length ≤ 5 then raw.take 3 ++ '-' :: raw.drop 3
  else raw.take 3 ++ '-' :: ((raw.drop 3).take 2 ++ '-' :: raw.drop 5)

/-- `getHiddenDisplayValue` from `src/ui/SSNInput.tsx`: mask the first
`min 5 n` digits of the canonical value with `*` and regroup. -/
def getHiddenDisplayValue (normalizedValue : Str) : Str :=
  let digits := digitsOf normalizedValue
  let maskedPrefixLength := min 5 digits.length
  let maskedDigits :=
    List.replicate maskedPrefixLength '*' ++ digits.drop maskedPrefixLength
  formatMaskedSSN maskedDigits

/-- A React `InputEvent` as observed by the `SSNInput` change handler:
`inputType` (e.g. `"insertText"`, `"deleteContentBackward"`, possibly
absent) and `data` (the inserted text, `null` for deletions). -/
structure InputEvt where
  inputType : Option Str
  data : Option Str

/-- `inputEvent.inputType?.startsWith("delete")` — `undefined` is falsy. -/
def isDeleteEvent (t : Option Str) : Bool :=
  match t with
  | none => false
  | some s => (str "delete").isPrefixOf s

/-- The `onChange` handler of `SSNInput` (src/ui/SSNInput.tsx).  `value` is the
current form value, `target` the full text now in the DOM input, and the
result is the value passed to `onChange` (the stored value is unchanged when
no `onChange` call is made). -/
def ssnOnChange (visible : Bool) (value : Str) (ev : InputEvt) (target : Str) : Str :=
  if visible then formatSSN target
  else
    let normalizedValue := formatSSN value
    let prevDigits := digitsOf normalizedValue
    let insertedDigits := digitsOf (ev.data.getD [])
    if isDeleteEvent ev.inputType then
      -- prevDigits.slice(0, Math.max(0, prevDigits.length - 1))
      formatSSN (prevDigits.take (prevDigits.length - 1))
    else if insertedDigits.length > 0 then
      formatSSN ((prevDigits ++ insertedDigits).take 9)
    else value

/-- The `onPaste` handler of `SSNInput`.  When visible the event is left to the
browser default (no state change here; the subsequent native change event goes
through `ssnOnChange`); when hidden the default is prevented and the pasted
digits are appended to the canonical digit string. -/
def ssnOnPaste (visible : Bool) (value : Str) (clipboard : Str) : Str :=
  if visible then value
  else
    let normalizedValue := formatSSN value
    let prevDigits := digitsOf normalizedValue
    let pastedDigits := digitsOf clipboard
    if pastedDigits.length > 0 then
      formatSSN ((prevDigits ++ pastedDigits).take 9)
    else value

/-- The phone field `onChange` handler (src/components/IdentityForm.tsx):
`field.onChange(formatPhone(e.target.value))`. -/
def phoneOnChange (target : Str) : Str := formatPhone target

/-! ## Schema (src/lib/schema.ts) -/

/-- Characters removed by JS `String.prototype.trim` (ECMA-262 WhiteSpace and
LineTerminator; the common ASCII subset plus NBSP suffices for this model). -/
def jsWS (c : Char) : Bool :=
  c = ' ' || c = '\t' || c = '\n' || c = '\r' || c = '\x0b' || c = '\x0c' || c = ' '

/-- JS `String.prototype.trim`: drop leading and trailing whitespace. -/
def jsTrim (s : Str) : Str := (s.dropWhile jsWS).rdropWhile jsWS

/-- A JS runtime value, as far as the `consent` field is concerned: zod's
`z.literal(true)` receives an `unknown` and accepts only the boolean `true`. -/
inductive JValue where
  | bool (b : Bool)
  | num (n : Int)
  | string (s : Str)
  | undefined
deriving DecidableEq

/-- The form value record (`IdentityFormValues`).  The text fields are plain
strings; `consent` is an arbitrary runtime value so that the literal-`true`
check is observable. -/
structure FormValues where
  fullName : Str
  street : Str
  city : Str
  state : Str
  zip : Str
  ssn : Str
  phoneNumber : Str
  dob : Str
  driversLicense : Str
  consent : JValue
deriving DecidableEq

/-- A zod issue, keyed by the dotted field path. -/
structure FieldError where
  path : Str
  message : Str
deriving DecidableEq

/-- Regex `^\d{3}-\d{2}-\d{4}$` (ssnSchema). -/
def ssnPattern : Str → Bool
  | [a, b, c, '-', d, e, '-', f, g, h, i] =>
    [a, b, c, d, e, f, g, h, i].all Char.isDigit
  | _ => false

/-- Regex `^\d{3}-\d{3}-\d{4}$` (phoneSchema). -/
def phonePattern : Str → Bool
  | [a, b, c, '-', d, e, f, '-', g, h, i, j] =>
    [a, b, c, d, e, f, g, h, i, j].all Char.isDigit
  | _ => false

/-- Regex `^\d{4}-\d{2}-\d{2}$` (dobSchema). -/
def dobPattern : Str → Bool
  | [y1, y2, y3, y4, '-', m1, m2, '-', d1, d2] =>
    [y1, y2, y3, y4, m1, m2, d1, d2].all Char.isDigit
  | _ => false

/-- Regex `^\d{5}(-\d{4})?$` (zip). -/
def zipPattern : Str → Bool
  | [a, b, c, d, e] => [a, b, c, d, e].all Char.isDigit
  | [a, b, c, d, e, '-', f, g, h, i] =>
    [a, b, c, d, e, f, g, h, i].all Char.isDigit
  | _ => false

/-- Numeric value of a digit character. -/
def digitVal (c : Char) : Nat := c.toNat - 48

/-- Numeric value of a digit string, most significant first. -/
def strVal (s : Str) : Nat := s.foldl (fun acc c => 10 * acc + digitVal c) 0

/-- Proleptic Gregorian leap year, as used by ECMA-262 `MakeDay`. -/
def isLeapYear (y : Nat) : Bool := y % 4 = 0 && (y % 100 ≠ 0 || y % 400 = 0)

/-- Days in a month of the proleptic Gregorian calendar. -/
def daysInMonth (y m : Nat) : Nat :=
  if m = 2 then (if isLeapYear y then 29 else 28)
  else if m = 4 || m = 6 || m = 9 || m = 11 then 30
  else 31

/-- Modelled from ECMA-262 (the `new Date(v)` built-in is outside this
repository): for a string already matching `YYYY-MM-DD`, the date-only ISO
parse yields a valid time value exactly when the month is 01-12 and the day is
01 up to the length of that month; otherwise `getTime()` is NaN.  All years
0000-9999 are within the representable time range. -/
def jsDateOk (s : Str) : Bool :=
  let y := strVal (s.take 4)
  let m := strVal ((s.drop 5).take 2)
  let d := strVal (s.drop 8)
  1 ≤ m && m ≤ 12 && 1 ≤ d && d ≤ daysInMonth y m

/-- `dobSchema`: the regex check, then the `.refine` calendar-date check
(zod runs the refinement only when the string checks pass). -/
def dobCheck (s : Str) : Bool := dobPattern s && jsDateOk s

/-- `consent: z.literal(true)` — passes exactly on the boolean `true`. -/
def consentCheck (v : JValue) : Bool := v = JValue.bool true

/-- The successfully parsed output (`IdentityFormOutput`): trimmed text
fields, pattern-validated sensitive fields carrying their brands. -/
structure IdentityOutput where
  fullName : Str
  street : Str
  city : Str
  state : Str
  zip : Str
  ssn : Str
  phoneNumber : Str
  dob : Str
  driversLicense : Str
deriving DecidableEq

/-- Issues produced by `identitySchema` for one form value record, in shape
order (zod collects every failing field, it does not short-circuit). -/
def identityIssues (v : FormValues) : List FieldError :=
  (if (jsTrim v.fullName).length < 1 then
    [⟨str "fullName", str "Full name is required."⟩] else []) ++
  (if (jsTrim v.fullName).length > 100 then
    [⟨str "fullName", str "String must contain at most 100 character(s)"⟩] else []) ++
  (if (jsTrim v.street).length < 1 then
    [⟨str "address.street", str "Street is required."⟩] else []) ++
  (if (jsTrim v.city).length < 1 then
    [⟨str "address.city", str "City is required."⟩] else []) ++
  (if (jsTrim v.state).length < 2 then
    [⟨str "address.state", str "State is required."⟩] else []) ++
  (if (jsTrim v.state).length > 2 then
    [⟨str "address.state", str "Use 2-letter state abbreviation."⟩] else []) ++
  (if !zipPattern (jsTrim v.zip) then
    [⟨str "address.zip", str "ZIP must be 5 or 9 digits (e.g. 84101 or 84101-1234)."⟩] else []) ++
  (if !ssnPattern v.ssn then
    [⟨str "ssn", str "SSN must be in XXX-XX-XXXX format."⟩] else []) ++
  (if !phonePattern v.phoneNumber then
    [⟨str "phoneNumber", str "Phone must be in XXX-XXX-XXXX format."⟩] else []) ++
  (if !dobPattern v.dob then
    [⟨str "dob", str "Date of birth must be a valid date."⟩]
   else if !jsDateOk v.dob then
    [⟨str "dob", str "Date of birth is not valid."⟩] else []) ++
  (if v.driversLicense.length < 4 then
    [⟨str "driversLicense", str "Driver's license number is too short."⟩] else []) ++
  (if !consentCheck v.consent then
    [⟨str "consent", str "You must consent to data processing to continue."⟩] else [])

/-- `identitySchema.safeParse`: every field rule must pass; on success the
output carries the trimmed / validated values. -/
def safeParseIdentity (v : FormValues) : Except (List FieldError) IdentityOutput :=
  match identityIssues v with
  | [] => Except.ok
      { fullName := jsTrim v.fullName
        street := jsTrim v.street
        city := jsTrim v.city
        state := jsTrim v.state
        zip := jsTrim v.zip
        ssn := v.ssn
        phoneNumber := v.phoneNumber
        dob := v.dob
        driversLicense := v.driversLicense }
  | e => Except.error e

/-- The submission payload: the parsed output with `consent` stripped
(`const { consent: _consent, ...payload } = parsed.data`).  `IdentityOutput`
already models the consent-free record, so the payload is the output itself. -/
def onValidSubmit (v : FormValues) : Option IdentityOutput :=
  match safeParseIdentity v with
  | Except.error _ => none
  | Except.ok parsed => some parsed

/-- `DEFAULTS` from IdentityForm: every text field empty, consent `false`. -/
def DEFAULTS : FormValues :=
  { fullName := [], street := [], city := [], state := [], zip := []
    ssn := [], phoneNumber := [], dob := [], driversLicense := []
    consent := JValue.bool false }

/-! ## Sanitizer (src/lib/sanitize.ts)

`sanitizeInput` delegates markup stripping to the external DOMPurify library
(`DOMPurify.sanitize(value, { ALLOWED_TAGS: [], ALLOWED_ATTR: [] })`), which
is not part of this repository, and then removes null characters.  The
DOMPurify call is modelled below from the spec.  -/

/-- Modelled from the spec: HTML serialization of a text node, as produced by
the external DOMPurify library when every tag is disallowed — the markup
delimiters and the ampersand are escaped as character entities. -/
def escChar (c : Char) : Str :=
  if c = '<' then str "&lt;"
  else if c = '>' then str "&gt;"
  else if c = '&' then str "&amp;"
  else [c]

/-- Serialize a text to HTML by escaping each character. -/
def encodeText : Str → Str
  | [] => []
  | c :: cs => escChar c ++ encodeText cs

/-- `.replace(/\0/g, "")`. -/
def removeNulls (s : Str) : Str := s.filter (fun c => c ≠ '\x00')

/-- Consume an open tag: everything up to and including the first `>`
(an unterminated tag consumes the rest of the input — malformed markup
degrades to best-effort stripped text). -/
def dropTag : Str → Str
  | [] => []
  | c :: rest => if c = '>' then rest else dropTag rest

/-- Consume the body of a script element up to and including the closing
`</script>` (or the rest of the input when unterminated): DOMPurify removes
the whole element, text content included. -/
def dropScriptEl : Str → Str
  | [] => []
  | c :: rest =>
    if (str "</script>").isPrefixOf (c :: rest) then (c :: rest).drop 9
    else dropScriptEl rest

theorem dropTag_length_le (s : Str) : (dropTag s).length ≤ s.length := by
  induction s with
  | nil => simp [dropTag]
  | cons c rest ih =>
    simp only [dropTag]
    split
    · simp
    · exact Nat.le_trans ih (Nat.le_succ _)

theorem dropScriptEl_length_le (s : Str) : (dropScriptEl s).length ≤ s.length := by
  induction s with
  | nil => simp [dropScriptEl]
  | cons c rest ih =>
    simp only [dropScriptEl]
    split
    · simp
      omega
    · exact Nat.le_trans ih (Nat.le_succ _)

/-- Modelled from the spec: the external DOMPurify parse with empty
allow-lists.  Tags are recognised at `<` and removed wholesale (a `script`
element loses its text content as well, matching the repository's sanitize
tests); character entities in text round-trip through the serializer. -/
def parseHTML : Str → Str
  | [] => []
  | '&' :: 'l' :: 't' :: ';' :: rest => '<' :: parseHTML rest
  | '&' :: 'g' :: 't' :: ';' :: rest => '>' :: parseHTML rest
  | '&' :: 'a' :: 'm' :: 'p' :: ';' :: rest => '&' :: parseHTML rest
  | '<' :: rest =>
    if (str "script").isPrefixOf rest then parseHTML (dropScriptEl (rest.drop 6))
    else parseHTML (dropTag rest)
  | c :: rest => c :: parseHTML rest
termination_by s => s.length
decreasing_by
  all_goals simp_wf
  all_goals try omega
  · have h1 := dropScriptEl_length_le (rest.drop 6)
    have h2 := List.length_drop 6 rest
    omega
  · have := dropTag_length_le rest
    omega

/-- `sanitizeInput` from src/lib/sanitize.ts: strip all markup via the
(modelled) DOMPurify call, then remove null bytes. -/
def sanitizeInput (value : Str) : Str :=
  removeNulls (encodeText (parseHTML value))

/-- `sanitize` from src/lib/sanitize.ts: `sanitizeInput(value).trim()`. -/
def sanitize (value : Str) : Str := jsTrim (sanitizeInput value)

example : sanitize (str "  hello  ") = str "hello" := by
  simp [sanitize, sanitizeInput, jsTrim, removeNulls, encodeText, escChar,
    parseHTML, dropTag, dropScriptEl, str, List.isPrefixOf, List.rdropWhile, jsWS]
example : sanitize (str "<b>John</b>") = str "John" := by
  simp [sanitize, sanitizeInput, jsTrim, removeNulls, encodeText, escChar,
    parseHTML, dropTag, dropScriptEl, str, List.isPrefixOf, List.rdropWhile, jsWS]
example : sanitize (str "Jane Doe") = str "Jane Doe" := by
  simp [sanitize, sanitizeInput, jsTrim, removeNulls, encodeText, escChar,
    parseHTML, dropTag, dropScriptEl, str, List.isPrefixOf, List.rdropWhile, jsWS]
example : sanitizeInput ((str "hello") ++ ['\x00'] ++ str "world") =
    str "helloworld" := by
  simp [sanitizeInput, removeNulls, encodeText, escChar,
    parseHTML, dropTag, dropScriptEl, str, List.isPrefixOf]
example : sanitize (str "<script>alert(\"xss\")</script>") = [] := by
  simp [sanitize, sanitizeInput, jsTrim, removeNulls, encodeText, escChar,
    parseHTML, dropTag, dropScriptEl, str, List.isPrefixOf, List.rdropWhile, jsWS]
example : sanitize (str "<img src=x onerror=alert(1)>") = [] := by
  simp [sanitize, sanitizeInput, jsTrim, removeNulls, encodeText, escChar,
    parseHTML, dropTag, dropScriptEl, str, List.isPrefixOf, List.rdropWhile, jsWS]

/-- A fully valid form value record used for concrete checks. -/
def VALID : FormValues :=
  { fullName := str "Jane Doe"
    street := str "123 Main St"
    city := str "Salt Lake City"
    state := str "UT"
    zip := str "84101"
    ssn := str "123-45-6789"
    phoneNumber := str "801-555-1234"
    dob := str "1990-01-15"
    driversLicense := str "D1234567"
    consent := JValue.bool true }

example : (identityIssues DEFAULTS).map FieldError.path =
    [str "fullName", str "address.street", str "address.city",
     str "address.state", str "address.zip", str "ssn", str "phoneNumber",
     str "dob", str "driversLicense", str "consent"] := by decide
example : identityIssues VALID = [] := by decide
example : (onValidSubmit VALID).map IdentityOutput.ssn = some (str "123-45-6789") := by decide
example : dobCheck (str "1990-01-15") = true := by decide
example : dobCheck (str "2021-02-30") = false := by decide
example : dobCheck (str "2020-02-29") = true := by decide
example : dobCheck (str "2021-02-29") = false := by decide
example : dobCheck (str "2021-13-01") = false := by decide
example : dobCheck (str "2021-00-10") = false := by decide
example : dobCheck (str "2021-01-00") = false := by decide
example : dobCheck (str "1990-1-5") = false := by decide

/-! ## Spec-side definitions

These follow the wording of the specification and are used only to state the
claims; they are compared against the embedded source functions. -/

/-- Spec: replace the first `k` digit characters of a string with the mask
character `*`, leaving every non-digit (separator) where it stands. -/
def maskFirstDigits : Nat → Str → Str
  | _, [] => []
  | 0, s => s
  | k + 1, c :: cs =>
    if c.isDigit then '*' :: maskFirstDigits k cs
    else c :: maskFirstDigits (k + 1) cs

/-- Spec: the string consists of digit groups of the given sizes joined by
single hyphens (`groupShape [3,2,4]` is the `DDD-DD-DDDD` shape). -/
def groupShape : List Nat → Str → Bool
  | [], s => s.isEmpty
  | [k], s => s.length == k && s.all Char.isDigit
  | k :: ks, s =>
    (s.take k).all Char.isDigit && s.get? k == some '-' && groupShape ks (s.drop (k + 1))

/-- The group sizes `formatSSN` is specified to produce for `n` digits
(`DDD`, `DDD-DD`, `DDD-DD-DDDD`). -/
def ssnGroups (n : Nat) : List Nat :=
  if n ≤ 3 then [n] else if n ≤ 5 then [3, n - 3] else [3, 2, n - 5]

/-- The group sizes `formatPhone` is specified to produce for `n` digits
(`DDD`, `DDD-DDD`, `DDD-DDD-DDDD`). -/
def phoneGroups (n : Nat) : List Nat :=
  if n ≤ 3 then [n] else if n ≤ 6 then [3, n - 3] else [3, 3, n - 6]

/-- Value of a two-digit group. -/
def digit2 (a b : Char) : Nat := 10 * digitVal a + digitVal b

/-- Value of a four-digit group. -/
def digit4 (a b c d : Char) : Nat :=
  1000 * digitVal a + 100 * digitVal b + 10 * digitVal c + digitVal d

/-- Spec: the string is of shape `YYYY-MM-DD` and denotes a real proleptic
Gregorian calendar date (month 1-12, day within the month's length). -/
def realCalendarDate : Str → Bool
  | [y1, y2, y3, y4, '-', m1, m2, '-', d1, d2] =>
    [y1, y2, y3, y4, m1, m2, d1, d2].all Char.isDigit &&
      (let y := digit4 y1 y2 y3 y4
       let m := digit2 m1 m2
       let d := digit2 d1 d2
       1 ≤ m && m ≤ 12 && 1 ≤ d && d ≤ daysInMonth y m)
  | _ => false

example : maskFirstDigits 5 (str "123-45-6789") = str "***-**-6789" := by decide
example : groupShape [3, 2, 4] (str "123-45-6789") = true := by decide
example : groupShape [3, 2, 2] (str "123-45-67") = true := by decide
example : groupShape [3, 1] (str "123-4") = true := by decide
example : realCalendarDate (str "1990-01-15") = true := by decide
example : realCalendarDate (str "2021-02-30") = false := by decide

example : formatSSN (str "123456789") = str "123-45-6789" := by decide
example : formatSSN (str "1234") = str "123-4" := by decide
example : formatSSN (str "abc123def45xyz6789") = str "123-45-6789" := by decide
example : formatSSN (str "<script>alert(1)</script>") = str "1" := by decide
example : formatPhone (str "(801) 555-1234") = str "801-555-1234" := by decide
example : formatPhone (str "80155512345") = str "801-555-1234" := by decide
example : getHiddenDisplayValue (str "123-45-6789") = str "***-**-6789" := by decide
example : getHiddenDisplayValue (str "123-45") = str "***-**" := by decide

/-! ## Helper lemmas: digits and formatters -/

theorem digitsOf_append (a b : Str) : digitsOf (a ++ b) = digitsOf a ++ digitsOf b :=
  List.filter_append a b

theorem digitsOf_dash (s : Str) : digitsOf ('-' :: s) = digitsOf s := by
  simp [digitsOf]

theorem mem_digitsOf_isDigit {s : Str} {c : Char} (h : c ∈ digitsOf s) : c.isDigit :=
  List.of_mem_filter h

theorem digitsOf_eq_self {d : Str} (h : ∀ c ∈ d, c.isDigit) : digitsOf d = d :=
  List.filter_eq_self.mpr h

theorem take_digitsOf_isDigit {s : Str} {n : Nat} : ∀ c ∈ (digitsOf s).take n, c.isDigit :=
  fun _ hc => mem_digitsOf_isDigit (List.mem_of_mem_take hc)

theorem formatSSN_digitsOf (s : Str) : digitsOf (formatSSN s) = (digitsOf s).take 9 := by
  have hd : ∀ c ∈ (digitsOf s).take 9, c.isDigit := take_digitsOf_isDigit
  simp only [formatSSN]
  split_ifs with h1 h2
  · exact digitsOf_eq_self hd
  · rw [digitsOf_append, digitsOf_dash,
      digitsOf_eq_self (fun c hc => hd c (List.mem_of_mem_take hc)),
      digitsOf_eq_self (fun c hc => hd c (List.mem_of_mem_drop hc)),
      List.take_append_drop]
  · rw [digitsOf_append, digitsOf_dash, digitsOf_append, digitsOf_dash,
      digitsOf_eq_self (fun c hc => hd c (List.mem_of_mem_take hc)),
      digitsOf_eq_self (fun c hc => hd c (List.mem_of_mem_drop (List.mem_of_mem_take hc))),
      digitsOf_eq_self (fun c hc => hd c (List.mem_of_mem_drop hc)),
      ← List.append_assoc, ← List.take_add, List.take_append_drop]

theorem formatPhone_digitsOf (s : Str) : digitsOf (formatPhone s) = (digitsOf s).take 10 := by
  have hd : ∀ c ∈ (digitsOf s).take 10, c.isDigit := take_digitsOf_isDigit
  simp only [formatPhone]
  split_ifs with h1 h2
  · exact digitsOf_eq_self hd
  · rw [digitsOf_append, digitsOf_dash,
      digitsOf_eq_self (fun c hc => hd c (List.mem_of_mem_take hc)),
      digitsOf_eq_self (fun c hc => hd c (List.mem_of_mem_drop hc)),
      List.take_append_drop]
  · rw [digitsOf_append, digitsOf_dash, digitsOf_append, digitsOf_dash,
      digitsOf_eq_self (fun c hc => hd c (List.mem_of_mem_take hc)),
      digitsOf_eq_self (fun c hc => hd c (List.mem_of_mem_drop (List.mem_of_mem_take hc))),
      digitsOf_eq_self (fun c hc => hd c (List.mem_of_mem_drop hc)),
      ← List.append_assoc, ← List.take_add, List.take_append_drop]

theorem formatSSN_congr {s t : Str} (h : (digitsOf s).take 9 = (digitsOf t).take 9) :
    formatSSN s = formatSSN t := by
  unfold formatSSN
  rw [h]

theorem formatPhone_congr {s t : Str} (h : (digitsOf s).take 10 = (digitsOf t).take 10) :
    formatPhone s = formatPhone t := by
  unfold formatPhone
  rw [h]

theorem formatSSN_idem (s : Str) : formatSSN (formatSSN s) = formatSSN s := by
  apply formatSSN_congr
  rw [formatSSN_digitsOf, List.take_take, Nat.min_self]

theorem formatPhone_idem (s : Str) : formatPhone (formatPhone s) = formatPhone s := by
  apply formatPhone_congr
  rw [formatPhone_digitsOf, List.take_take, Nat.min_self]

theorem formatSSN_chars {s : Str} {c : Char} (h : c ∈ formatSSN s) :
    c.isDigit ∨ c = '-' := by
  have hd : ∀ x ∈ (digitsOf s).take 9, x.isDigit := take_digitsOf_isDigit
  simp only [formatSSN] at h
  split_ifs at h with h1 h2
  · exact Or.inl (hd c h)
  · rcases List.mem_append.mp h with h3 | h3
    · exact Or.inl (hd c (List.mem_of_mem_take h3))
    · rcases List.mem_cons.mp h3 with h4 | h4
      · exact Or.inr h4
      · exact Or.inl (hd c (List.mem_of_mem_drop h4))
  · rcases List.mem_append.mp h with h3 | h3
    · exact Or.inl (hd c (List.mem_of_mem_take h3))
    · rcases List.mem_cons.mp h3 with h4 | h4
      · exact Or.inr h4
      · rcases List.mem_append.mp h4 with h5 | h5
        · exact Or.inl (hd c (List.mem_of_mem_drop (List.mem_of_mem_take h5)))
        · rcases List.mem_cons.mp h5 with h6 | h6
          · exact Or.inr h6
          · exact Or.inl (hd c (List.mem_of_mem_drop h6))

theorem formatPhone_chars {s : Str} {c : Char} (h : c ∈ formatPhone s) :
    c.isDigit ∨ c = '-' := by
  have hd : ∀ x ∈ (digitsOf s).take 10, x.isDigit := take_digitsOf_isDigit
  simp only [formatPhone] at h
  split_ifs at h with h1 h2
  · exact Or.inl (hd c h)
  · rcases List.mem_append.mp h with h3 | h3
    · exact Or.inl (hd c (List.mem_of_mem_take h3))
    · rcases List.mem_cons.mp h3 with h4 | h4
      · exact Or.inr h4
      · exact Or.inl (hd c (List.mem_of_mem_drop h4))
  · rcases List.mem_append.mp h with h3 | h3
    · exact Or.inl (hd c (List.mem_of_mem_take h3))
    · rcases List.mem_cons.mp h3 with h4 | h4
      · exact Or.inr h4
      · rcases List.mem_append.mp h4 with h5 | h5
        · exact Or.inl (hd c (List.mem_of_mem_drop (List.mem_of_mem_take h5)))
        · rcases List.mem_cons.mp h5 with h6 | h6
          · exact Or.inr h6
          · exact Or.inl (hd c (List.mem_of_mem_drop h6))

theorem mask_not_mem_formatSSN (s : Str) : '*' ∉ formatSSN s := by
  intro h
  rcases formatSSN_chars h with h1 | h1 <;> simp at h1

theorem mask_not_mem_formatPhone (s : Str) : '*' ∉ formatPhone s := by
  intro h
  rcases formatPhone_chars h with h1 | h1 <;> simp at h1

/-! ## Helper lemmas: group shapes -/

theorem groupShape_single {d : Str} (h : ∀ c ∈ d, c.isDigit) :
    groupShape [d.length] d = true := by
  simp [groupShape, List.all_eq_true]
  exact h

theorem groupShape_cons {a rest : Str} {k k2 : Nat} {ks : List Nat}
    (ha : ∀ c ∈ a, c.isDigit) (hk : a.length = k)
    (h : groupShape (k2 :: ks) rest = true) :
    groupShape (k :: k2 :: ks) (a ++ '-' :: rest) = true := by
  have htake : (a ++ '-' :: rest).take k = a := List.take_left' hk
  have hget : (a ++ '-' :: rest).get? k = some '-' := by
    rw [← hk, List.get?_append_right (Nat.le_refl _)]
    simp
  have hdrop : (a ++ '-' :: rest).drop (k + 1) = rest := by
    have : a ++ '-' :: rest = (a ++ ['-']) ++ rest := by simp
    rw [this]
    exact List.drop_left' (by simp [hk])
  simp only [groupShape, htake, hget, hdrop, h]
  simp [List.all_eq_true]
  exact ha

theorem formatSSN_shape (s : Str) :
    groupShape (ssnGroups (min 9 (digitsOf s).length)) (formatSSN s) = true := by
  have hd : ∀ c ∈ (digitsOf s).take 9, c.isDigit := take_digitsOf_isDigit
  have hlen : ((digitsOf s).take 9).length = min 9 (digitsOf s).length :=
    List.length_take 9 (digitsOf s)
  simp only [formatSSN, ssnGroups, ← hlen]
  split_ifs with h1 h2
  · exact groupShape_single hd
  · refine groupShape_cons (fun c hc => hd c (List.mem_of_mem_take hc))
      (by simp [List.length_take]; omega) ?_
    have : (((digitsOf s).take 9).drop 3).length = ((digitsOf s).take 9).length - 3 :=
      List.length_drop 3 _
    rw [← this]
    exact groupShape_single (fun c hc => hd c (List.mem_of_mem_drop hc))
  · refine groupShape_cons (fun c hc => hd c (List.mem_of_mem_take hc))
      (by simp [List.length_take]; omega) ?_
    refine groupShape_cons
      (fun c hc => hd c (List.mem_of_mem_drop (List.mem_of_mem_take hc)))
      (by simp [List.length_take, List.length_drop]; omega) ?_
    have : (((digitsOf s).take 9).drop 5).length = ((digitsOf s).take 9).length - 5 :=
      List.length_drop 5 _
    rw [← this]
    exact groupShape_single (fun c hc => hd c (List.mem_of_mem_drop hc))

theorem formatPhone_shape (s : Str) :
    groupShape (phoneGroups (min 10 (digitsOf s).length)) (formatPhone s) = true := by
  have hd : ∀ c ∈ (digitsOf s).take 10, c.isDigit := take_digitsOf_isDigit
  have hlen : ((digitsOf s).take 10).length = min 10 (digitsOf s).length :=
    List.length_take 10 (digitsOf s)
  simp only [formatPhone, phoneGroups, ← hlen]
  split_ifs with h1 h2
  · exact groupShape_single hd
  · refine groupShape_cons (fun c hc => hd c (List.mem_of_mem_take hc))
      (by simp [List.length_take]; omega) ?_
    have : (((digitsOf s).take 10).drop 3).length = ((digitsOf s).take 10).length - 3 :=
      List.length_drop 3 _
    rw [← this]
    exact groupShape_single (fun c hc => hd c (List.mem_of_mem_drop hc))
  · refine groupShape_cons (fun c hc => hd c (List.mem_of_mem_take hc))
      (by simp [List.length_take]; omega) ?_
    refine groupShape_cons
      (fun c hc => hd c (List.mem_of_mem_drop (List.mem_of_mem_take hc)))
      (by simp [List.length_take, List.length_drop]; omega) ?_
    have : (((digitsOf s).take 10).drop 6).length = ((digitsOf s).take 10).length - 6 :=
      List.length_drop 6 _
    rw [← this]
    exact groupShape_single (fun c hc => hd c (List.mem_of_mem_drop hc))

/-! ## Helper lemmas: mask projection -/

theorem maskFirstDigits_zero (s : Str) : maskFirstDigits 0 s = s := by
  cases s <;> rfl

theorem maskFirstDigits_digit_cons {c : Char} (h : c.isDigit) (k : Nat) (cs : Str) :
    maskFirstDigits (k + 1) (c :: cs) = '*' :: maskFirstDigits k cs := by
  simp [maskFirstDigits, h]

theorem maskFirstDigits_dash (k : Nat) (s : Str) :
    maskFirstDigits k ('-' :: s) = '-' :: maskFirstDigits k s := by
  cases k with
  | zero => rw [maskFirstDigits_zero, maskFirstDigits_zero]
  | succ k => simp [maskFirstDigits]

theorem maskFirstDigits_all_digit {d : Str} (h : ∀ c ∈ d, c.isDigit) (k : Nat) :
    maskFirstDigits k d = List.replicate (min k d.length) '*' ++ d.drop k := by
  induction d generalizing k with
  | nil => simp [maskFirstDigits]
  | cons c cs ih =>
    cases k with
    | zero => simp [maskFirstDigits_zero]
    | succ k =>
      rw [maskFirstDigits_digit_cons (h c (List.mem_cons_self c cs))]
      rw [ih (fun x hx => h x (List.mem_cons_of_mem c hx))]
      have : min (k + 1) (c :: cs).length = min k cs.length + 1 := by
        simp [List.length_cons]
        omega
      rw [this, List.replicate_succ]
      simp

theorem maskFirstDigits_append_digits {a : Str} (ha : ∀ c ∈ a, c.isDigit)
    {k : Nat} (hk : a.length ≤ k) (s : Str) :
    maskFirstDigits k (a ++ s) =
      List.replicate a.length '*' ++ maskFirstDigits (k - a.length) s := by
  induction a generalizing k with
  | nil => simp
  | cons c cs ih =>
    cases k with
    | zero => simp at hk
    | succ k =>
      rw [List.cons_append, maskFirstDigits_digit_cons (ha c (List.mem_cons_self c cs))]
      rw [ih (fun x hx => ha x (List.mem_cons_of_mem c hx)) (by simpa using hk)]
      simp [List.replicate_succ]

theorem getHiddenDisplayValue_mask_aux {d : Str} (hd : ∀ c ∈ d, c.isDigit)
    (h9 : d.length ≤ 9) :
    getHiddenDisplayValue (formatSSN d) =
      maskFirstDigits (min 5 d.length) (formatSSN d) := by
  have hdd : (digitsOf d).take 9 = d := by
    rw [digitsOf_eq_self hd, List.take_of_length_le h9]
  have hdig : digitsOf (formatSSN d) = d := by rw [formatSSN_digitsOf, hdd]
  simp only [getHiddenDisplayValue]
  rw [hdig]
  simp only [formatSSN, hdd]
  split_ifs with h1 h2
  · have hm : min 5 d.length = d.length := by omega
    rw [hm, List.drop_length, List.append_nil,
      maskFirstDigits_all_digit hd, Nat.min_self, List.drop_length, List.append_nil]
    simp only [formatMaskedSSN, List.length_replicate]
    rw [if_pos h1]
  · have hm : min 5 d.length = d.length := by omega
    have ht3 : (d.take 3).length = 3 := by
      simp [List.length_take]
      omega
    have hd3 : ((d.drop 3).length : Nat) = d.length - 3 := List.length_drop 3 d
    rw [hm, List.drop_length, List.append_nil]
    rw [maskFirstDigits_append_digits (fun c hc => hd c (List.mem_of_mem_take hc))
      (by rw [ht3]; omega), ht3, maskFirstDigits_dash,
      maskFirstDigits_all_digit (fun c hc => hd c (List.mem_of_mem_drop hc)),
      hd3, Nat.min_self, List.drop_eq_nil_of_le (by rw [hd3]), List.append_nil]
    simp only [formatMaskedSSN, List.length_replicate]
    rw [if_neg h1, if_pos h2, List.take_replicate, List.drop_replicate]
    have : min 3 d.length = 3 := by omega
    rw [this]
  · have hm : min 5 d.length = 5 := by omega
    have ht3 : (d.take 3).length = 3 := by
      simp [List.length_take]
      omega
    have ht2 : ((d.drop 3).take 2).length = 2 := by
      simp [List.length_take, List.length_drop]
      omega
    rw [hm]
    have harg : (List.replicate 5 '*' ++ d.drop 5).length = d.length := by
      simp [List.length_drop]
      omega
    simp only [formatMaskedSSN, harg]
    rw [if_neg h1, if_neg h2]
    rw [List.take_append_eq_append_take, List.take_replicate, List.length_replicate,
      List.drop_append_eq_append_drop, List.drop_replicate, List.length_replicate,
      List.take_append_eq_append_take, List.take_replicate, List.length_replicate,
      List.drop_append_eq_append_drop, List.drop_replicate, List.length_replicate]
    simp only [show (3 : Nat) - 5 = 0 from rfl, show (2 : Nat) - 2 = 0 from rfl,
      show (5 : Nat) - 5 = 0 from rfl, show min 3 5 = 3 from rfl,
      show (5 : Nat) - 3 = 2 from rfl, show min 2 2 = 2 from rfl,
      List.take_zero, List.drop_zero, List.replicate_zero, List.append_nil,
      List.nil_append]
    rw [maskFirstDigits_append_digits (fun c hc => hd c (List.mem_of_mem_take hc))
      (by rw [ht3]; omega), ht3, maskFirstDigits_dash,
      maskFirstDigits_append_digits
        (fun c hc => hd c (List.mem_of_mem_drop (List.mem_of_mem_take hc)))
        (by rw [ht2]) , ht2]
    simp only [show (5 : Nat) - 3 - 2 = 0 from by omega, maskFirstDigits_zero]

theorem formatSSN_norm (s : Str) : formatSSN s = formatSSN ((digitsOf s).take 9) := by
  apply formatSSN_congr
  rw [digitsOf_eq_self take_digitsOf_isDigit, List.take_take, Nat.min_self]

theorem getHiddenDisplayValue_mask (s : Str) :
    getHiddenDisplayValue (formatSSN s) =
      maskFirstDigits (min 5 (digitsOf (formatSSN s)).length) (formatSSN s) := by
  rw [formatSSN_digitsOf s, formatSSN_norm s]
  exact getHiddenDisplayValue_mask_aux take_digitsOf_isDigit
    (by rw [List.length_take]; exact Nat.min_le_left _ _)

theorem digitsOf_replicate_mask (k : Nat) : digitsOf (List.replicate k '*') = [] := by
  induction k with
  | zero => rfl
  | succ k ih =>
    have h : digitsOf ('*' :: List.replicate k '*') = digitsOf (List.replicate k '*') := by
      simp [digitsOf]
    rw [List.replicate_succ, h, ih]

theorem digitsOf_formatMaskedSSN (s : Str) :
    digitsOf (formatMaskedSSN s) = digitsOf s := by
  unfold formatMaskedSSN
  split_ifs with h1 h2
  · rfl
  · rw [digitsOf_append, digitsOf_dash, ← digitsOf_append, List.take_append_drop]
  · rw [digitsOf_append, digitsOf_dash, digitsOf_append, digitsOf_dash,
      ← List.append_assoc, ← digitsOf_append, ← List.take_add,
      ← digitsOf_append, List.take_append_drop]

theorem digitsOf_getHiddenDisplayValue (v : Str) :
    digitsOf (getHiddenDisplayValue v) =
      (digitsOf v).drop (min 5 (digitsOf v).length) := by
  simp only [getHiddenDisplayValue]
  rw [digitsOf_formatMaskedSSN, digitsOf_append, digitsOf_replicate_mask,
    List.nil_append]
  exact digitsOf_eq_self (fun c hc => mem_digitsOf_isDigit (List.mem_of_mem_drop hc))

/-! ## Helper lemmas: edit handlers -/

theorem digitsOf_fixed {value : Str} (hval : formatSSN value = value) :
    digitsOf value = (digitsOf value).take 9 ∧ (digitsOf value).length ≤ 9 := by
  constructor
  · conv_lhs => rw [← hval]
    rw [formatSSN_digitsOf]
  · have h := formatSSN_digitsOf value
    rw [hval] at h
    rw [h, List.length_take]
    exact Nat.min_le_left _ _

theorem digitsOf_formatSSN_of_digits {d : Str} (hd : ∀ c ∈ d, c.isDigit) :
    digitsOf (formatSSN d) = d.take 9 := by
  rw [formatSSN_digitsOf, digitsOf_eq_self hd]

theorem ssnOnChange_hidden_delete {value : Str} (hval : formatSSN value = value)
    {ev : InputEvt} (hdel : isDeleteEvent ev.inputType = true) (target : Str) :
    digitsOf (ssnOnChange false value ev target) = (digitsOf value).dropLast := by
  obtain ⟨hfix, hlen⟩ := digitsOf_fixed hval
  simp only [ssnOnChange, if_neg (Bool.false_ne_true), hval, hdel, if_pos]
  rw [digitsOf_formatSSN_of_digits
      (fun c hc => mem_digitsOf_isDigit (List.mem_of_mem_take hc))]
  rw [List.take_take, List.dropLast_eq_take]
  congr 1
  omega

theorem ssnOnChange_hidden_insert {value : Str} (hval : formatSSN value = value)
    {ev : InputEvt} (hdel : isDeleteEvent ev.inputType = false)
    (hins : (digitsOf (ev.data.getD [])).length > 0) (target : Str) :
    digitsOf (ssnOnChange false value ev target) =
      (digitsOf value ++ digitsOf (ev.data.getD [])).take 9 := by
  simp only [ssnOnChange, if_neg (Bool.false_ne_true), hval, hdel,
    Bool.false_eq_true, if_false, if_pos hins]
  rw [digitsOf_formatSSN_of_digits (fun c hc => by
    rcases List.mem_append.mp (List.mem_of_mem_take hc) with h | h
    · exact mem_digitsOf_isDigit h
    · exact mem_digitsOf_isDigit h)]
  rw [List.take_take, Nat.min_self]

theorem ssnOnPaste_hidden {value : Str} (hval : formatSSN value = value)
    {clipboard : Str} (hp : (digitsOf clipboard).length > 0) :
    digitsOf (ssnOnPaste false value clipboard) =
      (digitsOf value ++ digitsOf clipboard).take 9 := by
  simp only [ssnOnPaste, if_neg (Bool.false_ne_true), hval, if_pos hp]
  rw [digitsOf_formatSSN_of_digits (fun c hc => by
    rcases List.mem_append.mp (List.mem_of_mem_take hc) with h | h
    · exact mem_digitsOf_isDigit h
    · exact mem_digitsOf_isDigit h)]
  rw [List.take_take, Nat.min_self]

theorem ssnOnChange_fixed (visible : Bool) {value : Str}
    (hval : formatSSN value = value) (ev : InputEvt) (target : Str) :
    formatSSN (ssnOnChange visible value ev target) =
      ssnOnChange visible value ev target := by
  simp only [ssnOnChange]
  split_ifs <;> first | exact formatSSN_idem _ | exact hval

theorem ssnOnPaste_fixed (visible : Bool) {value : Str}
    (hval : formatSSN value = value) (clipboard : Str) :
    formatSSN (ssnOnPaste visible value clipboard) =
      ssnOnPaste visible value clipboard := by
  simp only [ssnOnPaste]
  split_ifs <;> first | exact formatSSN_idem _ | exact hval

theorem fixed_no_mask {x : Str} (h : formatSSN x = x) : '*' ∉ x := by
  intro hm
  rw [← h] at hm
  exact mask_not_mem_formatSSN x hm

theorem identityIssues_ne_none {v : FormValues} (h : identityIssues v ≠ []) :
    onValidSubmit v = none := by
  unfold onValidSubmit safeParseIdentity
  cases he : identityIssues v with
  | nil => exact absurd he h
  | cons a l => simp

/-! ## Helper lemmas: sanitizer -/

theorem encodeText_append (a b : Str) :
    encodeText (a ++ b) = encodeText a ++ encodeText b := by
  induction a with
  | nil => rfl
  | cons c cs ih => simp [encodeText, ih]

theorem mem_encodeText {x : Char} {t : Str} (h : x ∈ encodeText t) :
    ∃ c ∈ t, x ∈ escChar c := by
  induction t with
  | nil => simp [encodeText] at h
  | cons c cs ih =>
    simp only [encodeText, List.mem_append] at h
    rcases h with h | h
    · exact ⟨c, List.mem_cons_self c cs, h⟩
    · obtain ⟨d, hd, hx⟩ := ih h
      exact ⟨d, List.mem_cons_of_mem c hd, hx⟩

theorem escChar_no_lt (c : Char) : '<' ∉ escChar c := by
  unfold escChar
  split_ifs with h1 h2 h3 <;> simp [str]
  · intro h
    exact h1 h.symm

theorem escChar_no_gt (c : Char) : '>' ∉ escChar c := by
  unfold escChar
  split_ifs with h1 h2 h3 <;> simp [str]
  · intro h
    exact h2 h.symm

theorem escChar_no_null {c : Char} (h : c ≠ '\x00') : '\x00' ∉ escChar c := by
  unfold escChar
  split_ifs with h1 h2 h3 <;> simp [str]
  intro he
  exact h he.symm

theorem escChar_null : escChar '\x00' = ['\x00'] := by
  unfold escChar
  simp only [if_neg (show ¬('\x00' = '<') from by decide),
    if_neg (show ¬('\x00' = '>') from by decide),
    if_neg (show ¬('\x00' = '&') from by decide)]

theorem encodeText_no_lt (t : Str) : '<' ∉ encodeText t := by
  intro h
  obtain ⟨c, _, hx⟩ := mem_encodeText h
  exact escChar_no_lt c hx

theorem encodeText_no_gt (t : Str) : '>' ∉ encodeText t := by
  intro h
  obtain ⟨c, _, hx⟩ := mem_encodeText h
  exact escChar_no_gt c hx

theorem encodeText_no_null {t : Str} (ht : '\x00' ∉ t) : '\x00' ∉ encodeText t := by
  intro h
  obtain ⟨c, hc, hx⟩ := mem_encodeText h
  exact escChar_no_null (fun he => ht (he ▸ hc)) hx

theorem removeNulls_no_null (s : Str) : '\x00' ∉ removeNulls s := by
  intro h
  have := List.of_mem_filter h
  simp at this

theorem removeNulls_eq_self {s : Str} (h : '\x00' ∉ s) : removeNulls s = s :=
  List.filter_eq_self.mpr (fun a ha => by
    simp only [ne_eq, decide_eq_true_eq]
    intro he
    exact h (he ▸ ha))

theorem removeNulls_cons_null (s : Str) :
    removeNulls ('\x00' :: s) = removeNulls s := by
  simp [removeNulls]

theorem removeNulls_cons_other {c : Char} (h : c ≠ '\x00') (s : Str) :
    removeNulls (c :: s) = c :: removeNulls s := by
  simp [removeNulls, List.filter_cons, h]

theorem removeNulls_encodeText (t : Str) :
    removeNulls (encodeText t) = encodeText (removeNulls t) := by
  induction t with
  | nil => rfl
  | cons c cs ih =>
    by_cases h : c = '\x00'
    · subst h
      rw [show encodeText ('\x00' :: cs) = '\x00' :: encodeText cs from by
          rw [encodeText, escChar_null]
          rfl,
        removeNulls_cons_null, removeNulls_cons_null, ih]
    · have hn : '\x00' ∉ escChar c := escChar_no_null h
      rw [show encodeText (c :: cs) = escChar c ++ encodeText cs from rfl]
      rw [show removeNulls (escChar c ++ encodeText cs) =
          removeNulls (escChar c) ++ removeNulls (encodeText cs) from
          List.filter_append _ _,
        removeNulls_eq_self hn, ih, removeNulls_cons_other h,
        show encodeText (c :: removeNulls cs) =
          escChar c ++ encodeText (removeNulls cs) from rfl]

theorem parseHTML_nil : parseHTML [] = [] := by
  rw [parseHTML.eq_def]

theorem parseHTML_ent_lt (rest : Str) :
    parseHTML ('&' :: 'l' :: 't' :: ';' :: rest) = '<' :: parseHTML rest := by
  rw [parseHTML.eq_def]
  rfl

theorem parseHTML_ent_gt (rest : Str) :
    parseHTML ('&' :: 'g' :: 't' :: ';' :: rest) = '>' :: parseHTML rest := by
  rw [parseHTML.eq_def]
  rfl

theorem parseHTML_ent_amp (rest : Str) :
    parseHTML ('&' :: 'a' :: 'm' :: 'p' :: ';' :: rest) = '&' :: parseHTML rest := by
  rw [parseHTML.eq_def]
  rfl

theorem parseHTML_cons_generic {c : Char} (h1 : c ≠ '<') (h3 : c ≠ '&') (rest : Str) :
    parseHTML (c :: rest) = c :: parseHTML rest := by
  rw [parseHTML.eq_def]
  split
  · simp_all
  · simp_all
  · simp_all
  · simp_all
  · simp_all
  · rename_i h
    injection h with hc hr
    rw [hc, hr]

theorem parseHTML_encodeText (t : Str) : parseHTML (encodeText t) = t := by
  induction t with
  | nil => exact parseHTML_nil
  | cons c cs ih =>
    by_cases h1 : c = '<'
    · subst h1
      rw [show encodeText ('<' :: cs) = '&' :: 'l' :: 't' :: ';' :: encodeText cs from rfl,
        parseHTML_ent_lt, ih]
    by_cases h2 : c = '>'
    · subst h2
      rw [show encodeText ('>' :: cs) = '&' :: 'g' :: 't' :: ';' :: encodeText cs from by
          rw [show encodeText ('>' :: cs) = escChar '>' ++ encodeText cs from rfl]
          rfl,
        parseHTML_ent_gt, ih]
    by_cases h3 : c = '&'
    · subst h3
      rw [show encodeText ('&' :: cs) = '&' :: 'a' :: 'm' :: 'p' :: ';' :: encodeText cs from by
          rw [show encodeText ('&' :: cs) = escChar '&' ++ encodeText cs from rfl]
          rfl,
        parseHTML_ent_amp, ih]
    · have hesc : escChar c = [c] := by
        unfold escChar
        rw [if_neg h1, if_neg h2, if_neg h3]
      rw [show encodeText (c :: cs) = escChar c ++ encodeText cs from rfl, hesc,
        List.singleton_append, parseHTML_cons_generic h1 h3, ih]

theorem sanitizeInput_encode (s : Str) :
    sanitizeInput s = encodeText (removeNulls (parseHTML s)) := by
  unfold sanitizeInput
  rw [removeNulls_encodeText]

theorem sanitizeInput_of_encode {u : Str} (hu : '\x00' ∉ u) :
    sanitizeInput (encodeText u) = encodeText u := by
  unfold sanitizeInput
  rw [parseHTML_encodeText, removeNulls_encodeText, removeNulls_eq_self hu]

theorem sanitizeInput_idem (s : Str) :
    sanitizeInput (sanitizeInput s) = sanitizeInput s := by
  rw [sanitizeInput_encode s]
  exact sanitizeInput_of_encode (removeNulls_no_null _)

theorem jsWS_not_special {c : Char} (h : jsWS c = true) :
    c ≠ '<' ∧ c ≠ '>' ∧ c ≠ '&' := by
  refine ⟨?_, ?_, ?_⟩ <;> intro he <;> subst he <;> exact absurd h (by decide)

theorem escChar_ws {c : Char} (h : jsWS c = true) : escChar c = [c] := by
  obtain ⟨h1, h2, h3⟩ := jsWS_not_special h
  unfold escChar
  rw [if_neg h1, if_neg h2, if_neg h3]

theorem escChar_head_not_ws {c : Char} (hf : jsWS c = false) :
    ∃ e es, escChar c = e :: es ∧ jsWS e = false := by
  unfold escChar
  split_ifs with h1 h2 h3
  · exact ⟨'&', ['l', 't', ';'], rfl, by decide⟩
  · exact ⟨'&', ['g', 't', ';'], rfl, by decide⟩
  · exact ⟨'&', ['a', 'm', 'p', ';'], rfl, by decide⟩
  · exact ⟨c, [], rfl, hf⟩

theorem escChar_last_not_ws {c : Char} (hf : jsWS c = false) :
    ∃ init e, escChar c = init ++ [e] ∧ jsWS e = false := by
  unfold escChar
  split_ifs with h1 h2 h3
  · exact ⟨['&', 'l', 't'], ';', rfl, by decide⟩
  · exact ⟨['&', 'g', 't'], ';', rfl, by decide⟩
  · exact ⟨['&', 'a', 'm', 'p'], ';', rfl, by decide⟩
  · exact ⟨[], c, rfl, hf⟩

theorem dropWhile_encodeText (t : Str) :
    (encodeText t).dropWhile jsWS = encodeText (t.dropWhile jsWS) := by
  induction t with
  | nil => rfl
  | cons c cs ih =>
    by_cases hws : jsWS c = true
    · rw [show encodeText (c :: cs) = escChar c ++ encodeText cs from rfl,
        escChar_ws hws, List.singleton_append, List.dropWhile_cons,
        List.dropWhile_cons, if_pos hws, if_pos hws, ih]
    · have hf : jsWS c = false := by
        cases hb : jsWS c
        · rfl
        · exact absurd hb hws
      obtain ⟨e, es, hesc, hews⟩ := escChar_head_not_ws hf
      rw [show encodeText (c :: cs) = escChar c ++ encodeText cs from rfl, hesc,
        List.cons_append, List.dropWhile_cons, if_neg (by simp [hews]),
        List.dropWhile_cons, if_neg (by simp [hf]),
        show encodeText (c :: cs) = escChar c ++ encodeText cs from rfl, hesc,
        List.cons_append]

theorem rdropWhile_encodeText (t : Str) :
    (encodeText t).rdropWhile jsWS = encodeText (t.rdropWhile jsWS) := by
  induction t using List.reverseRecOn with
  | nil => rfl
  | append_singleton ts c ih =>
    rw [encodeText_append,
      show encodeText [c] = escChar c from by
        rw [show encodeText [c] = escChar c ++ encodeText [] from rfl]
        simp [encodeText]]
    by_cases hws : jsWS c = true
    · rw [escChar_ws hws, List.rdropWhile_concat_pos _ _ _ hws, ih,
        List.rdropWhile_concat_pos _ _ _ hws]
    · have hf : jsWS c = false := by
        cases hb : jsWS c
        · rfl
        · exact absurd hb hws
      obtain ⟨init, e, hesc, hews⟩ := escChar_last_not_ws hf
      rw [hesc, ← List.append_assoc,
        List.rdropWhile_concat_neg _ _ _ (by simp [hews]),
        List.rdropWhile_concat_neg _ _ _ (by simp [hf]),
        encodeText_append,
        show encodeText [c] = escChar c from by
          rw [show encodeText [c] = escChar c ++ encodeText [] from rfl]
          simp [encodeText],
        hesc, List.append_assoc]

theorem jsTrim_encodeText (t : Str) :
    jsTrim (encodeText t) = encodeText (jsTrim t) := by
  unfold jsTrim
  rw [dropWhile_encodeText, rdropWhile_encodeText]

theorem head_dropWhile_false {p : Char → Bool} :
    ∀ {l l2 : List Char} {a : Char}, l.dropWhile p = a :: l2 → p a = false := by
  intro l
  induction l with
  | nil =>
    intro l2 a h
    simp at h
  | cons x xs ih =>
    intro l2 a h
    rw [List.dropWhile_cons] at h
    by_cases hx : p x = true
    · rw [if_pos hx] at h
      exact ih h
    · rw [if_neg hx] at h
      injection h with h1 _
      rw [← h1]
      cases hb : p x
      · rfl
      · exact absurd hb hx

theorem jsTrim_idem (s : Str) : jsTrim (jsTrim s) = jsTrim s := by
  unfold jsTrim
  have h1 : List.dropWhile jsWS ((s.dropWhile jsWS).rdropWhile jsWS) =
      (s.dropWhile jsWS).rdropWhile jsWS := by
    cases he : (s.dropWhile jsWS).rdropWhile jsWS with
    | nil => rfl
    | cons a l =>
      obtain ⟨t2, ht2⟩ := List.rdropWhile_prefix jsWS (s.dropWhile jsWS)
      rw [he] at ht2
      have hfa : jsWS a = false :=
        head_dropWhile_false (show s.dropWhile jsWS = a :: (l ++ t2) from by
          rw [← ht2]
          rfl)
      rw [List.dropWhile_cons, if_neg (by simp [hfa])]
  rw [h1, List.rdropWhile_idempotent]

theorem mem_of_mem_jsTrim {x : Char} {s : Str} (h : x ∈ jsTrim s) : x ∈ s := by
  unfold jsTrim at h
  exact (List.dropWhile_sublist _).subset
    ((List.rdropWhile_prefix _ _).sublist.subset h)

theorem sanitize_encode (s : Str) :
    sanitize s = encodeText (jsTrim (removeNulls (parseHTML s))) := by
  unfold sanitize
  rw [sanitizeInput_encode, jsTrim_encodeText]

theorem sanitize_idem (s : Str) : sanitize (sanitize s) = sanitize s := by
  rw [sanitize_encode s]
  unfold sanitize
  rw [sanitizeInput_of_encode
      (fun h => removeNulls_no_null (parseHTML s) (mem_of_mem_jsTrim h)),
    jsTrim_encodeText, jsTrim_idem, ← sanitize_encode]

theorem sanitize_no_lt (s : Str) : '<' ∉ sanitize s := by
  rw [sanitize_encode]
  exact encodeText_no_lt _

theorem sanitize_no_gt (s : Str) : '>' ∉ sanitize s := by
  rw [sanitize_encode]
  exact encodeText_no_gt _

theorem sanitize_no_null (s : Str) : '\x00' ∉ sanitize s := by
  rw [sanitize_encode]
  exact encodeText_no_null
    (fun h => removeNulls_no_null (parseHTML s) (mem_of_mem_jsTrim h))

/-! ## Helper lemmas: date validation -/

theorem jsDateOk_eq_real {s : Str} (hp : dobPattern s = true) :
    jsDateOk s = realCalendarDate s := by
  unfold dobPattern at hp
  split at hp
  · next y1 y2 y3 y4 m1 m2 d1 d2 =>
    simp only [jsDateOk, realCalendarDate, hp, Bool.true_and]
    have h4 : strVal [y1, y2, y3, y4] = digit4 y1 y2 y3 y4 := by
      simp [strVal, digit4]
      ring
    have hm : strVal [m1, m2] = digit2 m1 m2 := by
      simp [strVal, digit2]
    have hd : strVal [d1, d2] = digit2 d1 d2 := by
      simp [strVal, digit2]
    simp only [List.take, List.drop]
    simp only [h4, hm, hd]
  · exact absurd hp (by simp)

/-! ## Claims -/

/-- C1: when full-form validation (the `identitySchema` safeParse guard in
`onValidSubmit`) fails for any field, the transport is not invoked; and the
entirely empty default form produces a validation error for every one of the
ten required fields (in schema order) and never calls the transport. -/
theorem claim_C1 :
    (∀ v : FormValues, identityIssues v ≠ [] → onValidSubmit v = none) ∧
    (identityIssues DEFAULTS).map FieldError.path =
      [str "fullName", str "address.street", str "address.city",
       str "address.state", str "address.zip", str "ssn", str "phoneNumber",
       str "dob", str "driversLicense", str "consent"] ∧
    onValidSubmit DEFAULTS = none :=
  ⟨fun _ h => identityIssues_ne_none h, by decide, by decide⟩

/-- Witness for C1 at the concrete empty default form. -/
theorem claim_C1_witness : onValidSubmit DEFAULTS = none :=
  claim_C1.1 DEFAULTS (by decide)

/-- C2: the hidden-mode display projection of a canonical SSN value replaces
all digits but the last 4 with `*` and preserves the separators in place
(`maskFirstDigits`); concretely `123456789` formats to `123-45-6789`
(the revealed display), displays hidden as `***-**-6789`, and the value
validated and submitted is the unmasked canonical `123-45-6789`. -/
theorem claim_C2 :
    (∀ s : Str, getHiddenDisplayValue (formatSSN s) =
      maskFirstDigits (min 5 (digitsOf (formatSSN s)).length) (formatSSN s)) ∧
    formatSSN (str "123456789") = str "123-45-6789" ∧
    getHiddenDisplayValue (str "123-45-6789") = str "***-**-6789" ∧
    (onValidSubmit VALID).map IdentityOutput.ssn = some (str "123-45-6789") :=
  ⟨getHiddenDisplayValue_mask, by decide, by decide, by decide⟩

/-- C3: `formatSSN` keeps exactly the first 9 digit characters of its input
(discarding everything else, including digits' surrounding markup while
keeping embedded digits) and renders them in the `DDD` / `DDD-DD` /
`DDD-DD-DDDD` group shape; `formatPhone` does the same with 10 digits and
`DDD` / `DDD-DDD` / `DDD-DDD-DDDD`.  Both are total functions on strings
(they are defined for every input and always return a, possibly empty,
string by construction). -/
theorem claim_C3 :
    (∀ s : Str, digitsOf (formatSSN s) = (digitsOf s).take 9 ∧
      groupShape (ssnGroups (min 9 (digitsOf s).length)) (formatSSN s) = true) ∧
    (∀ s : Str, digitsOf (formatPhone s) = (digitsOf s).take 10 ∧
      groupShape (phoneGroups (min 10 (digitsOf s).length)) (formatPhone s) = true) ∧
    formatSSN (str "<script>alert(1)</script>") = str "1" :=
  ⟨fun s => ⟨formatSSN_digitsOf s, formatSSN_shape s⟩,
    fun s => ⟨formatPhone_digitsOf s, formatPhone_shape s⟩, by decide⟩

/-- C4: while the SSN field is hidden, a delete-type input removes exactly the
last canonical digit, a typed insertion appends the inserted digit characters
capped at 9, a paste appends the pasted digit characters capped at 9, and the
handler never reads the rendered (masked) input text, so mask characters are
never interpreted as digits. -/
theorem claim_C4 :
    ∀ value : Str, formatSSN value = value →
    (∀ ev : InputEvt, ∀ target : Str, isDeleteEvent ev.inputType = true →
      digitsOf (ssnOnChange false value ev target) = (digitsOf value).dropLast) ∧
    (∀ ev : InputEvt, ∀ target : Str, isDeleteEvent ev.inputType = false →
      (digitsOf (ev.data.getD [])).length > 0 →
      digitsOf (ssnOnChange false value ev target) =
        (digitsOf value ++ digitsOf (ev.data.getD [])).take 9) ∧
    (∀ clipboard : Str, (digitsOf clipboard).length > 0 →
      digitsOf (ssnOnPaste false value clipboard) =
        (digitsOf value ++ digitsOf clipboard).take 9) ∧
    (∀ ev : InputEvt, ∀ t1 t2 : Str,
      ssnOnChange false value ev t1 = ssnOnChange false value ev t2) := by
  intro value hval
  refine ⟨fun ev target hdel => ssnOnChange_hidden_delete hval hdel target,
    fun ev target hdel hins => ssnOnChange_hidden_insert hval hdel hins target,
    fun clipboard hp => ssnOnPaste_hidden hval hp,
    fun ev t1 t2 => rfl⟩

/-- Witness for C4: deleting from the canonical value `123-45` while hidden
leaves the digit string `1234`. -/
theorem claim_C4_witness :
    digitsOf (ssnOnChange false (str "123-45")
      ⟨some (str "deleteContentBackward"), none⟩ (str "***-*")) =
      (digitsOf (str "123-45")).dropLast :=
  (claim_C4 (str "123-45") (by decide)).1
    ⟨some (str "deleteContentBackward"), none⟩ (str "***-*") (by decide)

/-- C5: `formatSSN` output carries at most 9 digit characters, matches one of
the three length-keyed group shapes, and `formatSSN` is idempotent. -/
theorem claim_C5 :
    ∀ s : Str, (digitsOf (formatSSN s)).length ≤ 9 ∧
      groupShape (ssnGroups (min 9 (digitsOf s).length)) (formatSSN s) = true ∧
      formatSSN (formatSSN s) = formatSSN s := by
  intro s
  refine ⟨?_, formatSSN_shape s, formatSSN_idem s⟩
  rw [formatSSN_digitsOf, List.length_take]
  exact Nat.min_le_left _ _

/-- C6: sanitized output contains no markup delimiters and no null
characters, and `sanitize` (as well as the non-trimming `sanitizeInput`) is
idempotent.  Both are total Lean functions, hence pure and non-throwing;
malformed markup is consumed as best-effort stripped text by `parseHTML`. -/
theorem claim_C6 :
    ∀ s : Str, '<' ∉ sanitize s ∧ '>' ∉ sanitize s ∧ '\x00' ∉ sanitize s ∧
      sanitize (sanitize s) = sanitize s ∧
      sanitizeInput (sanitizeInput s) = sanitizeInput s :=
  fun s => ⟨sanitize_no_lt s, sanitize_no_gt s, sanitize_no_null s,
    sanitize_idem s, sanitizeInput_idem s⟩

/-- C7: starting from any canonical value (a fixed point of the formatter,
which includes the initial empty value), every SSN edit handler and the phone
change handler store a value that is again a fixed point of the corresponding
formatter — digit-grouped with separators, never raw and never containing the
mask character. -/
theorem claim_C7 :
    ∀ value : Str, formatSSN value = value →
    (∀ visible : Bool, ∀ ev : InputEvt, ∀ target : Str,
      formatSSN (ssnOnChange visible value ev target) =
        ssnOnChange visible value ev target ∧
      '*' ∉ ssnOnChange visible value ev target) ∧
    (∀ visible : Bool, ∀ clipboard : Str,
      formatSSN (ssnOnPaste visible value clipboard) =
        ssnOnPaste visible value clipboard ∧
      '*' ∉ ssnOnPaste visible value clipboard) ∧
    (∀ target : Str, formatPhone (phoneOnChange target) = phoneOnChange target ∧
      '*' ∉ phoneOnChange target) := by
  intro value hval
  refine ⟨fun visible ev target =>
      ⟨ssnOnChange_fixed visible hval ev target,
        fixed_no_mask (ssnOnChange_fixed visible hval ev target)⟩,
    fun visible clipboard =>
      ⟨ssnOnPaste_fixed visible hval clipboard,
        fixed_no_mask (ssnOnPaste_fixed visible hval clipboard)⟩,
    fun target => ⟨formatPhone_idem target, mask_not_mem_formatPhone target⟩⟩

/-- Witness for C7 at a concrete canonical value and a revealed-mode edit. -/
theorem claim_C7_witness :
    formatSSN (ssnOnChange true (str "123-45") ⟨none, none⟩ (str "1234567890123")) =
      ssnOnChange true (str "123-45") ⟨none, none⟩ (str "1234567890123") :=
  ((claim_C7 (str "123-45") (by decide)).1 true ⟨none, none⟩ (str "1234567890123")).1

/-- C8: the dob validator passes exactly the strings that match `YYYY-MM-DD`
and denote a real proleptic Gregorian calendar date; pattern-matching strings
that are not real dates (like `2021-02-30` or the non-leap `2021-02-29`)
are rejected. -/
theorem claim_C8 :
    (∀ s : Str, dobCheck s = true ↔
      (dobPattern s = true ∧ realCalendarDate s = true)) ∧
    dobCheck (str "1990-01-15") = true ∧
    dobCheck (str "2021-02-30") = false ∧ dobPattern (str "2021-02-30") = true ∧
    dobCheck (str "2021-02-29") = false ∧
    dobCheck (str "2020-02-29") = true := by
  refine ⟨fun s => ?_, by decide, by decide, by decide, by decide, by decide⟩
  unfold dobCheck
  rw [Bool.and_eq_true]
  constructor
  · rintro ⟨hp, hj⟩
    refine ⟨hp, ?_⟩
    rw [← jsDateOk_eq_real hp]
    exact hj
  · rintro ⟨hp, hr⟩
    refine ⟨hp, ?_⟩
    rw [jsDateOk_eq_real hp]
    exact hr

/-- C9: the consent check passes exactly the boolean `true`; `false`,
`undefined`, the string `"true"` and the number `1` all fail. -/
theorem claim_C9 :
    (∀ v : JValue, consentCheck v = true ↔ v = JValue.bool true) ∧
    consentCheck (JValue.bool false) = false ∧
    consentCheck JValue.undefined = false ∧
    consentCheck (JValue.string (str "true")) = false ∧
    consentCheck (JValue.num 1) = false := by
  refine ⟨fun v => ?_, by decide, by decide, by decide, by decide⟩
  unfold consentCheck
  exact decide_eq_true_iff

/-- C10: for a canonical SSN value with n digits, the hidden display shows in
clear exactly the trailing n - min 5 n digits (at most 4), and shows no digit
at all when 5 or fewer digits have been entered. -/
theorem claim_C10 :
    ∀ s : Str,
      digitsOf (getHiddenDisplayValue (formatSSN s)) =
        (digitsOf (formatSSN s)).drop (min 5 (digitsOf (formatSSN s)).length) ∧
      (digitsOf (getHiddenDisplayValue (formatSSN s))).length =
        (digitsOf (formatSSN s)).length -
          min 5 (digitsOf (formatSSN s)).length ∧
      (digitsOf (getHiddenDisplayValue (formatSSN s))).length ≤ 4 ∧
      ((digitsOf (formatSSN s)).length ≤ 5 →
        digitsOf (getHiddenDisplayValue (formatSSN s)) = []) := by
  intro s
  have h1 := digitsOf_getHiddenDisplayValue (formatSSN s)
  have hlen : (digitsOf (formatSSN s)).length ≤ 9 := by
    rw [formatSSN_digitsOf, List.length_take]
    exact Nat.min_le_left _ _
  refine ⟨h1, ?_, ?_, ?_⟩
  · rw [h1, List.length_drop]
  · rw [h1, List.length_drop]
    omega
  · intro h5
    rw [h1]
    have hm : min 5 (digitsOf (formatSSN s)).length =
        (digitsOf (formatSSN s)).length := by omega
    rw [hm, List.drop_length]

/-- Witness for C10: with 5 digits entered no digit is shown in clear. -/
theorem claim_C10_witness :
    digitsOf (getHiddenDisplayValue (formatSSN (str "12345"))) = [] :=
  (claim_C10 (str "12345")).2.2.2 (by decide)
